import Mathlib

/-!
Verification of the retrieval-augmented chat backend (`src/server.js`).

The development shallowly embeds the server's logic:

* JavaScript numbers are idealized as exact reals (`ℝ`).  The one place
  where IEEE-754 semantics is observable — `dot` reading past the end of
  its second argument, which in JavaScript yields `undefined` and poisons
  the sum with `NaN` — is modelled explicitly with `Option ℝ`, where
  `none` stands for `NaN`.
* Stateful HTTP handlers become pure functions; each outbound service
  call (embedding, moderation, chat completion) is an explicit
  `Except Unit _` parameter standing for "the call threw" vs. "the call
  returned this value", and the handler also returns the list of
  external calls it performed, in order.
* The SQLite table becomes a list of rows plus a strictly increasing
  logical clock for `created_at` (timestamps of distinct inserts are
  idealized as distinct).
-/

open scoped List

namespace AIBot

/-! ### Vector utilities (`server.js` lines 53–67)

`dot(a, b)` loops `i` over `0 ≤ i < a.length` and accumulates
`a[i] * b[i]`.  When `b` is shorter than `a`, `b[i]` is `undefined` and
the accumulator becomes `NaN`; we model that outcome as `none`. -/

def dot : List ℝ → List ℝ → Option ℝ
  | [], _ => some 0
  | _ :: _, [] => none
  | a :: as, b :: bs => (dot as bs).map (fun s => a * b + s)

/-- The real value of `dot a b` when no out-of-range read happens:
the sum of pointwise products over the length of the first argument
(`zipWith` truncates to the shorter list). -/
def dotVal (a b : List ℝ) : ℝ := (List.zipWith (· * ·) a b).sum

theorem dot_eq_some : ∀ {a b : List ℝ}, a.length ≤ b.length →
    dot a b = some (dotVal a b)
  | [], _, _ => by simp [dot, dotVal]
  | _ :: _, [], h => by simp at h
  | x :: as, y :: bs, h => by
    rw [dot, dot_eq_some (by simpa using h)]
    simp [dotVal]

theorem dot_eq_none : ∀ {a b : List ℝ}, b.length < a.length →
    dot a b = none
  | _ :: _, [], _ => rfl
  | x :: as, y :: bs, h => by
    rw [dot, dot_eq_none (by simpa using h)]
    rfl

theorem dot_self (a : List ℝ) : dot a a = some (dotVal a a) :=
  dot_eq_some le_rfl

/-- `norm(a) = Math.sqrt(dot(a, a))` (`server.js` lines 59–61).
`dot a a` never reads out of range, so the `getD` default is inert. -/
noncomputable def norm (a : List ℝ) : ℝ := Real.sqrt ((dot a a).getD 0)

theorem norm_eq (a : List ℝ) : norm a = Real.sqrt (dotVal a a) := by
  rw [norm, dot_self]
  rfl

theorem dotVal_self_nonneg (a : List ℝ) : 0 ≤ dotVal a a := by
  induction a with
  | nil => simp [dotVal]
  | cons x as ih =>
    have : dotVal (x :: as) (x :: as) = x * x + dotVal as as := by
      simp [dotVal]
    rw [this]
    have := mul_self_nonneg x
    linarith

theorem norm_nonneg' (a : List ℝ) : 0 ≤ norm a := by
  rw [norm_eq]; exact Real.sqrt_nonneg _

/-- `cosineSim(a, b)` (`server.js` lines 62–67): return `0` when either
norm is zero, otherwise divide the dot product by the product of norms.
The result is `none` exactly when the JavaScript result is `NaN`. -/
noncomputable def cosineSim (a b : List ℝ) : Option ℝ :=
  if norm a = 0 ∨ norm b = 0 then some 0
  else (dot a b).map (fun s => s / (norm a * norm b))

/-- The real value of `cosineSim` used by the ranking pipeline; on
length-compatible inputs it agrees with `cosineSim` (see
`cosineSim_eq_some`), and on a `NaN` result it is `0` — like `NaN`,
a `0` score can never exceed the `0.65` threshold. -/
noncomputable def cosineSimVal (a b : List ℝ) : ℝ := (cosineSim a b).getD 0

theorem cosineSim_eq_some {a b : List ℝ} (h : a.length ≤ b.length) :
    cosineSim a b = some (cosineSimVal a b) := by
  rw [cosineSim, cosineSimVal, cosineSim]
  split
  · rfl
  · rw [dot_eq_some h]
    rfl

/-! ### Cauchy–Schwarz for the list dot product -/

theorem dotVal_sq_le : ∀ a b : List ℝ,
    dotVal a b ^ 2 ≤ dotVal a a * dotVal b b
  | [], b => by simp [dotVal, mul_nonneg (dotVal_self_nonneg []) (dotVal_self_nonneg b)]
  | _ :: _, [] => by simp [dotVal]
  | x :: as, y :: bs => by
    have ih := dotVal_sq_le as bs
    have hA := dotVal_self_nonneg as
    have hB := dotVal_self_nonneg bs
    have e1 : dotVal (x :: as) (y :: bs) = x * y + dotVal as bs := by simp [dotVal]
    have e2 : dotVal (x :: as) (x :: as) = x * x + dotVal as as := by simp [dotVal]
    have e3 : dotVal (y :: bs) (y :: bs) = y * y + dotVal bs bs := by simp [dotVal]
    rw [e1, e2, e3]
    set d := dotVal as bs with hd
    set A := dotVal as as with hA'
    set B := dotVal bs bs with hB'
    rcases eq_or_lt_of_le hB with hB0 | hBpos
    · have hd0 : d = 0 := by
        have : d ^ 2 ≤ 0 := by rw [← hB0] at ih; simpa using ih
        exact sq_eq_zero_iff.mp (le_antisymm this (sq_nonneg d))

      rw [hd0, ← hB0]
      nlinarith [mul_nonneg hA (mul_self_nonneg y)]
    · nlinarith [sq_nonneg (x * B - y * d), mul_nonneg (mul_self_nonneg y) (sub_nonneg.mpr ih)]

theorem abs_dotVal_le (a b : List ℝ) : |dotVal a b| ≤ norm a * norm b := by
  rw [norm_eq, norm_eq, ← Real.sqrt_mul (dotVal_self_nonneg a)]
  have h1 : |dotVal a b| = Real.sqrt (dotVal a b ^ 2) := (Real.sqrt_sq_eq_abs _).symm
  rw [h1]
  exact Real.sqrt_le_sqrt (dotVal_sq_le a b)

/-- The threshold test `s.score > 0.65` (`server.js` line 155) as it
behaves in JavaScript: a `NaN` score (modelled `none`) compares `false`. -/
noncomputable def passesThreshold : Option ℝ → Bool
  | some v => decide (v > 0.65)
  | none => false

theorem dotVal_take : ∀ (q d : List ℝ), dotVal q (d.take q.length) = dotVal q d
  | [], _ => by simp [dotVal]
  | _ :: _, [] => by simp [dotVal]
  | x :: xs, y :: ys => by
    have ih := dotVal_take xs ys
    simp only [List.length_cons, List.take_succ_cons, dotVal, List.zipWith_cons_cons,
      List.sum_cons] at ih ⊢
    rw [ih]

/-- `norm [1] = 1`. -/
theorem norm_single_one : norm [(1 : ℝ)] = 1 := by
  rw [norm_eq]
  simp [dotVal]

/-- `norm [1, 1] = √2`. -/
theorem norm_pair_one : norm [(1 : ℝ), 1] = Real.sqrt 2 := by
  rw [norm_eq]
  have : dotVal [(1 : ℝ), 1] [1, 1] = 2 := by simp [dotVal]; norm_num
  rw [this]

theorem sqrt_two_ne_zero : Real.sqrt 2 ≠ 0 := by
  have : (0 : ℝ) < Real.sqrt 2 := Real.sqrt_pos.mpr (by norm_num)
  exact ne_of_gt this

/-- **C4.** For every pair of vectors `a`, `b`: if either has zero
magnitude then `cosineSim a b` returns `0`, and otherwise the divisor
`norm a * norm b` used by the division is nonzero, so no division by
zero is ever performed. -/
theorem cosineSim_zero_guard (a b : List ℝ) :
    ((norm a = 0 ∨ norm b = 0) → cosineSim a b = some 0) ∧
    (¬(norm a = 0 ∨ norm b = 0) → norm a * norm b ≠ 0) := by
  constructor
  · intro h
    rw [cosineSim, if_pos h]
  · intro h
    push_neg at h
    exact mul_ne_zero h.1 h.2

/-- Witness for C4 at the zero vector `[0]` against `[1]`. -/
theorem cosineSim_zero_guard_witness : cosineSim [(0 : ℝ)] [(1 : ℝ)] = some 0 :=
  (cosineSim_zero_guard [(0 : ℝ)] [(1 : ℝ)]).1 (Or.inl (by rw [norm_eq]; simp [dotVal]))

/-- **C9.** For every pair of same-dimension vectors, `cosineSim`
produces a real score, and it lies in the closed interval `[-1, 1]`. -/
theorem cosineSim_bounds (a b : List ℝ) (h : a.length = b.length) :
    ∃ s, cosineSim a b = some s ∧ -1 ≤ s ∧ s ≤ 1 := by
  rw [cosineSim]
  split
  · exact ⟨0, rfl, by norm_num, by norm_num⟩
  · next hcond =>
    push_neg at hcond
    rw [dot_eq_some h.le]
    refine ⟨dotVal a b / (norm a * norm b), rfl, ?_⟩
    have hpos : 0 < norm a * norm b :=
      lt_of_le_of_ne (mul_nonneg (norm_nonneg' a) (norm_nonneg' b))
        (Ne.symm (mul_ne_zero hcond.1 hcond.2))
    have habs : |dotVal a b / (norm a * norm b)| ≤ 1 := by
      rw [abs_div, abs_of_pos hpos]
      exact (div_le_one hpos).mpr (abs_dotVal_le a b)
    exact abs_le.mp habs

/-- Witness for C9 at `a = [1]`, `b = [1]` (same dimension). -/
theorem cosineSim_bounds_witness :
    ∃ s, cosineSim [(1 : ℝ)] [(1 : ℝ)] = some s ∧ -1 ≤ s ∧ s ≤ 1 :=
  cosineSim_bounds [(1 : ℝ)] [(1 : ℝ)] rfl

/-- **C10, counterexample.** For `q = [1]` and the longer stored vector
`d = [1, 1]`, the score is `1/√2`, not the cosine similarity of `q`
with the prefix of `d` truncated to `q`'s length (which is `1`): the
dot product is truncated to the first argument's length but the
denominator uses the norm of all of `d`. -/
theorem cosineSim_truncate_counterexample :
    cosineSim [(1 : ℝ)] [(1 : ℝ), 1] ≠
      cosineSim [(1 : ℝ)] (List.take 1 [(1 : ℝ), 1]) := by
  have ht : List.take 1 [(1 : ℝ), 1] = [(1 : ℝ)] := rfl
  rw [ht]
  have hguard1 : ¬(norm [(1 : ℝ)] = 0 ∨ norm [(1 : ℝ), 1] = 0) := by
    rw [norm_single_one, norm_pair_one]
    push_neg
    exact ⟨one_ne_zero, sqrt_two_ne_zero⟩
  have hguard2 : ¬(norm [(1 : ℝ)] = 0 ∨ norm [(1 : ℝ)] = 0) := by
    rw [norm_single_one]
    push_neg
    exact ⟨one_ne_zero, one_ne_zero⟩
  rw [cosineSim, if_neg hguard1, cosineSim, if_neg hguard2,
    dot_eq_some (by simp), dot_eq_some (by simp)]
  have hd1 : dotVal [(1 : ℝ)] [(1 : ℝ), 1] = 1 := by simp [dotVal]
  have hd2 : dotVal [(1 : ℝ)] [(1 : ℝ)] = 1 := by simp [dotVal]
  rw [Option.map_some', Option.map_some', hd1, hd2, norm_single_one, norm_pair_one]
  intro h
  have h' : 1 / (1 * Real.sqrt 2) = 1 / (1 * 1) := Option.some_injective _ h
  have hlt : (1 : ℝ) < Real.sqrt 2 := by
    rw [show (1 : ℝ) = Real.sqrt 1 by rw [Real.sqrt_one]]
    exact Real.sqrt_lt_sqrt (by norm_num) (by norm_num)
  rw [one_mul, one_mul] at h'
  have : Real.sqrt 2 = 1 := by
    field_simp at h'
    linarith
  rw [this] at hlt
  exact lt_irrefl 1 hlt

/-- **C10, amended.** `dot` iterates over the length of its first
argument. If the stored vector `d` is at least as long as the query
`q` (and neither norm is zero), the score is the truncated dot product
`dotVal q (d.take q.length)` divided by `norm q * norm d` — the
denominator uses the norm of all of `d`, so this is in general *not*
the cosine similarity of `q` with the truncated prefix. If `d` is
shorter than `q`, the score is `NaN` (modelled `none`) — or `0` if a
zero-norm guard fires first — and in either case it never passes the
`> 0.65` threshold filter, so such a document is never selected as
context. -/
theorem cosineSim_mismatched_dims (q d : List ℝ) :
    (q.length ≤ d.length → ¬(norm q = 0 ∨ norm d = 0) →
      cosineSim q d = some (dotVal q (d.take q.length) / (norm q * norm d))) ∧
    (d.length < q.length → passesThreshold (cosineSim q d) = false) := by
  constructor
  · intro hlen hguard
    rw [cosineSim, if_neg hguard, dot_eq_some hlen, Option.map_some', dotVal_take]
  · intro hlen
    rw [cosineSim]
    split
    · exact decide_eq_false (by norm_num)
    · rw [dot_eq_none hlen]
      rfl

/-- Witness for C10 (amended) at `q = [1]`, `d = [1, 1]` for the
truncation part and `q = [1, 1]`, `d = [1]` for the `NaN` part. -/
theorem cosineSim_mismatched_dims_witness :
    cosineSim [(1 : ℝ)] [(1 : ℝ), 1] =
      some (dotVal [(1 : ℝ)] (List.take 1 [(1 : ℝ), 1]) /
        (norm [(1 : ℝ)] * norm [(1 : ℝ), 1])) ∧
    passesThreshold (cosineSim [(1 : ℝ), 1] [(1 : ℝ)]) = false := by
  constructor
  · exact (cosineSim_mismatched_dims [(1 : ℝ)] [(1 : ℝ), 1]).1 (by simp)
      (by rw [norm_single_one, norm_pair_one]; push_neg
          exact ⟨one_ne_zero, sqrt_two_ne_zero⟩)
  · exact (cosineSim_mismatched_dims [(1 : ℝ), 1] [(1 : ℝ)]).2 (by simp)

/-! ### Document rows and the Similarity Ranker (`server.js` lines 143–155) -/

/-- A stored document row (table `documents`): identifier, optional
title, content, embedding (post `JSON.parse`), creation timestamp
(a logical clock value, see `DB`). -/
structure Doc where
  id : ℕ
  title : Option String
  content : String
  embedding : List ℝ
  created_at : ℕ

/-- A scored candidate pushed onto `scored` (`server.js` line 149). -/
structure Scored where
  id : ℕ
  title : Option String
  content : String
  score : ℝ

/-- The comparator `(a, b) => b.score - a.score` (`server.js` line 154):
`a` may be placed before `b` exactly when `b.score ≤ a.score`
(descending order).  JavaScript's `Array.prototype.sort` is stable,
which `List.mergeSort` models. -/
noncomputable def scoreLE (a b : Scored) : Bool := decide (b.score ≤ a.score)

/-- The `scored` list in storage order (`server.js` lines 144–153):
one candidate per row, scored against the query embedding.

The score is the real value `cosineSimVal`.  When every stored
embedding has the query's dimensionality — the data-model invariant,
and the hypothesis of `rankCandidates_spec` — `cosineSim` returns
`some` of exactly this value (`cosineSim_eq_some`), so no `NaN` is
collapsed and the comparator below is consistent.  Outside that
region a `NaN` score makes the JavaScript comparator return `NaN`
(coerced to "equal" by `SortCompare`), leaving the sort order
implementation-defined, so the ranking claim is only stated on the
invariant region. -/
noncomputable def scoreDocs (q : List ℝ) (rows : List Doc) : List Scored :=
  rows.map (fun r => ⟨r.id, r.title, r.content, cosineSimVal q r.embedding⟩)

/-- The Similarity Ranker (`server.js` lines 144–155): sort the scored
candidates descending by score with a stable sort, take the first
`K = 3`, keep those with score strictly above `T = 0.65`. -/
noncomputable def rankCandidates (q : List ℝ) (rows : List Doc) : List Scored :=
  (((scoreDocs q rows).mergeSort scoreLE).take 3).filter
    (fun s => decide (s.score > 0.65))

theorem scoreLE_trans : ∀ a b c : Scored, scoreLE a b → scoreLE b c → scoreLE a c :=
  fun _ _ _ hab hbc =>
    decide_eq_true (le_trans (of_decide_eq_true hbc) (of_decide_eq_true hab))

theorem scoreLE_total : ∀ a b : Scored, scoreLE a b || scoreLE b a := by
  intro a b
  simp only [scoreLE, Bool.or_eq_true, decide_eq_true_eq]
  exact le_total b.score a.score

/-- Stability of the sort, phrased per equivalence class: for any
predicate `p` on which the comparator is reflexive-in-both-directions
(in particular "score equals `s`"), the `p`-entries of the sorted list
are exactly the `p`-entries of the input, in input order. -/
theorem filter_mergeSort_eq (l : List Scored) (p : Scored → Bool)
    (hp : ∀ a b : Scored, p a → p b → scoreLE a b) :
    (l.mergeSort scoreLE).filter p = l.filter p := by
  have hpair : (l.filter p).Pairwise (fun a b => scoreLE a b) :=
    List.pairwise_of_forall_mem_list
      (fun a ha b hb => hp a b (List.of_mem_filter ha) (List.of_mem_filter hb))
  have hsub : l.filter p <+ l.mergeSort scoreLE :=
    List.sublist_mergeSort scoreLE_trans scoreLE_total hpair (List.filter_sublist l)
  have hself : (l.filter p).filter p = l.filter p :=
    List.filter_eq_self.mpr (fun a ha => List.of_mem_filter ha)
  have hfil : l.filter p <+ (l.mergeSort scoreLE).filter p := by
    have := hsub.filter p
    rwa [hself] at this
  have hperm : (l.mergeSort scoreLE).filter p ~ l.filter p :=
    (List.mergeSort_perm l scoreLE).filter p
  exact (hfil.eq_of_length hperm.length_eq.symm).symm

/-- **C1.** For every query vector and every collection of stored rows
satisfying the data-model invariant that stored embeddings have the
query's dimensionality (spec §3; under it no score is `NaN`, which the
first conjunct certifies: `cosineSim` returns `some` of exactly the
score the pipeline uses, so the comparator is consistent and
JavaScript's stable sort is `List.mergeSort`), with `K = 3` and
`T = 0.65`, the Similarity Ranker returns at most `K` matches; every
returned match has score strictly greater than `T`; the matches are
sorted in descending score order; and (stability) for every score
value, the returned matches with that score are a subsequence — in
original storage order — of the scored candidates with that score. -/
theorem rankCandidates_spec (q : List ℝ) (rows : List Doc)
    (hdim : ∀ r ∈ rows, r.embedding.length = q.length) :
    (∀ r ∈ rows, cosineSim q r.embedding = some (cosineSimVal q r.embedding)) ∧
    (rankCandidates q rows).length ≤ 3 ∧
    (∀ x ∈ rankCandidates q rows, x.score > 0.65) ∧
    (rankCandidates q rows).Pairwise (fun a b => b.score ≤ a.score) ∧
    (∀ s : ℝ, (rankCandidates q rows).filter (fun x => decide (x.score = s)) <+
      (scoreDocs q rows).filter (fun x => decide (x.score = s))) := by
  refine ⟨fun r hr => cosineSim_eq_some (hdim r hr).ge, ?_, ?_, ?_, ?_⟩
  · exact (List.length_filter_le _ _).trans (List.length_take_le 3 _)
  · intro x hx
    rw [rankCandidates] at hx
    exact of_decide_eq_true (List.mem_filter.mp hx).2
  · have hsorted : ((scoreDocs q rows).mergeSort scoreLE).Pairwise
        (fun a b => b.score ≤ a.score) :=
      (List.sorted_mergeSort scoreLE_trans scoreLE_total (scoreDocs q rows)).imp
        (fun h => of_decide_eq_true h)
    have hsub : rankCandidates q rows <+ (scoreDocs q rows).mergeSort scoreLE :=
      (List.filter_sublist _).trans (List.take_sublist 3 _)
    exact hsorted.sublist hsub
  · intro s
    have h1 : (rankCandidates q rows).filter (fun x => decide (x.score = s)) <+
        (((scoreDocs q rows).mergeSort scoreLE).take 3).filter
          (fun x => decide (x.score = s)) :=
      (List.filter_sublist _).filter _
    have h2 : (((scoreDocs q rows).mergeSort scoreLE).take 3).filter
          (fun x => decide (x.score = s)) <+
        ((scoreDocs q rows).mergeSort scoreLE).filter (fun x => decide (x.score = s)) :=
      (List.take_sublist 3 _).filter _
    have h3 : ((scoreDocs q rows).mergeSort scoreLE).filter
          (fun x => decide (x.score = s)) =
        (scoreDocs q rows).filter (fun x => decide (x.score = s)) :=
      filter_mergeSort_eq _ _ (fun a b ha hb => by
        have ha' : a.score = s := of_decide_eq_true ha
        have hb' : b.score = s := of_decide_eq_true hb
        exact decide_eq_true (le_of_eq (hb'.trans ha'.symm)))
    rw [← h3]
    exact h1.trans h2

/-- Witness for C1: query `[1]` against one stored row whose embedding
`[1]` has the query's dimensionality. -/
theorem rankCandidates_spec_witness :
    (∀ r ∈ [(⟨1, none, "a", [(1 : ℝ)], 0⟩ : Doc)],
      cosineSim [(1 : ℝ)] r.embedding = some (cosineSimVal [(1 : ℝ)] r.embedding)) ∧
    (rankCandidates [(1 : ℝ)] [(⟨1, none, "a", [(1 : ℝ)], 0⟩ : Doc)]).length ≤ 3 ∧
    (∀ x ∈ rankCandidates [(1 : ℝ)] [(⟨1, none, "a", [(1 : ℝ)], 0⟩ : Doc)],
      x.score > 0.65) ∧
    (rankCandidates [(1 : ℝ)] [(⟨1, none, "a", [(1 : ℝ)], 0⟩ : Doc)]).Pairwise
      (fun a b => b.score ≤ a.score) ∧
    (∀ s : ℝ,
      (rankCandidates [(1 : ℝ)] [(⟨1, none, "a", [(1 : ℝ)], 0⟩ : Doc)]).filter
          (fun x => decide (x.score = s)) <+
        (scoreDocs [(1 : ℝ)] [(⟨1, none, "a", [(1 : ℝ)], 0⟩ : Doc)]).filter
          (fun x => decide (x.score = s))) :=
  rankCandidates_spec [(1 : ℝ)] [(⟨1, none, "a", [(1 : ℝ)], 0⟩ : Doc)]
    (by intro r hr; rw [List.mem_singleton.mp hr])

/-! ### HTTP surface and orchestrator (`server.js` lines 69–199)

Each handler becomes a pure function.  Outbound service calls appear
twice: as `Except Unit _` parameters giving the outcome the service
would produce ("threw" vs. a value), and in an `ApiCall` log the
handler returns, listing the external calls actually performed, in
order.  "The chat-completion call is never made" is then the absence
of a `chatCompletion` entry in the log. -/

/-- A role-tagged conversation message. -/
structure Msg where
  role : String
  content : String

/-- External service calls performed by a handler, in order. -/
inductive ApiCall where
  | moderation (input : String)
  | embedding (input : String)
  | storeRead
  | chatCompletion (msgs : List Msg)

/-- The HTTP responses of `POST /api/chat`. -/
inductive Resp where
  | ok (reply : String)
  | badRequest (error : String)
  | forbidden (error : String)
  | serverError (error : String)

/-- `lastUser` / `lastContent` (`server.js` lines 115–116): the content
of the most recent `user`-role message, defaulting to `""`. -/
def lastUserContent (msgs : List Msg) : String :=
  ((msgs.reverse.find? (fun m => m.role == "user")).map Msg.content).getD ""

/-- The fixed system-prompt parts (`server.js` lines 166–173). -/
def systemPromptParts : List String :=
  ["You are an extremely capable, safe, and concise AI assistant. Help the user solve problems across many domains: programming, writing, math, planning, troubleshooting, and general knowledge. When appropriate:",
   "- Ask clarifying questions before assuming.",
   "- Provide step-by-step plans, example code, and explanation in simple terms.",
   "- If an answer requires external resources or current events beyond your knowledge, say so and offer a plan to find the info.",
   "- If multiple reasonable options exist, list them with pros/cons.",
   "- Keep answers factual, avoid hallucinations, and cite the provided documents when they are used."]

/-- The header prepended to retrieved context (`server.js` line 175). -/
def contextHeader : String :=
  "The following documents were retrieved from the user\x27s knowledge base and may be relevant. Use them to inform your answer and cite them inline when referenced:\n"

/-- `score.toFixed(3)` (`server.js` line 158), rendered as the integer
number of thousandths: exact decimal string formatting of a real is
immaterial to every claim, only the shape of the block matters. -/
noncomputable def scoreFixed3 (s : ℝ) : String := toString (round (s * 1000) : ℤ)

/-- The `contextText` built from the top matches (`server.js` line 158). -/
noncomputable def contextTextOf (top : List Scored) : String :=
  String.intercalate "\n\n" (top.enum.map (fun p =>
    "--- DOCUMENT " ++ toString (p.1 + 1) ++ " (" ++ p.2.title.getD "untitled" ++
      ", score=" ++ scoreFixed3 p.2.score ++ ") ---\n" ++ p.2.content))

/-- The retrieval step (`server.js` lines 133–163): embed the query,
read all rows, rank.  Any failure yields empty context (`""`); the
returned list records which external calls were performed. -/
noncomputable def retrievalStep (input : String) (embOutcome : Except Unit (List ℝ))
    (storeOutcome : Except Unit (List Doc)) : String × List ApiCall :=
  match embOutcome with
  | .error _ => ("", [ApiCall.embedding input])
  | .ok q =>
    match storeOutcome with
    | .error _ => ("", [ApiCall.embedding input, ApiCall.storeRead])
    | .ok rows =>
      let top := rankCandidates q rows
      (if top.length ≠ 0 then contextTextOf top else "",
        [ApiCall.embedding input, ApiCall.storeRead])

/-- Prompt composition (`server.js` lines 166–177): the fixed parts,
plus the context block only when `contextText` is nonempty (truthy). -/
def composeSystemPrompt (contextText : String) : String :=
  String.intercalate "\n\n"
    (systemPromptParts ++ (if contextText ≠ "" then [contextHeader ++ contextText] else []))

/-- Message assembly (`server.js` lines 180–183): the composed system
message first, then the caller-supplied messages with any `system`
ones filtered out. -/
def finalMessages (systemPrompt : String) (msgs : List Msg) : List Msg :=
  ⟨"system", systemPrompt⟩ :: msgs.filter (fun m => m.role != "system")

/-- `POST /api/chat` (`server.js` lines 105–199).  `messages = none`
models a missing or non-array `messages` value (the only shapes the
validation rejects); `some msgs` models an array. -/
noncomputable def chatHandler (hasKey : Bool) (messages : Option (List Msg))
    (modOutcome : Except Unit Bool) (embOutcome : Except Unit (List ℝ))
    (storeOutcome : Except Unit (List Doc)) (chatOutcome : Except Unit String) :
    Resp × List ApiCall :=
  if !hasKey then (.serverError "Server not configured with OPENAI_API_KEY", [])
  else
    match messages with
    | none => (.badRequest "messages must be an array", [])
    | some msgs =>
      let lastContent := lastUserContent msgs
      match modOutcome with
      | .ok true =>
        (.forbidden "Content flagged by moderation", [ApiCall.moderation lastContent])
      | _ =>
        let r := retrievalStep lastContent embOutcome storeOutcome
        let fm := finalMessages (composeSystemPrompt r.1) msgs
        let calls := ApiCall.moderation lastContent :: r.2 ++ [ApiCall.chatCompletion fm]
        match chatOutcome with
        | .error _ => (.serverError "Internal server error", calls)
        | .ok reply => (.ok reply, calls)

/-- **C3.** When the moderation service reports the last user message
as flagged, the request is rejected with a forbidden response, and the
only external call made is the moderation call — in particular the
chat-completion call is never made. -/
theorem chatHandler_flagged (msgs : List Msg) (emb : Except Unit (List ℝ))
    (store : Except Unit (List Doc)) (chat : Except Unit String) :
    chatHandler true (some msgs) (.ok true) emb store chat =
      (.forbidden "Content flagged by moderation",
        [ApiCall.moderation (lastUserContent msgs)]) := rfl

/-- **C2.** If the retrieval step fails (the embedding call throws, or
the store read throws), the chat request still returns a normal reply,
and the chat-completion call is made with the system prompt composed
from empty context — which is exactly the fixed prompt parts, with no
retrieved-document block. -/
theorem chatHandler_retrieval_failure (msgs : List Msg) (mod : Except Unit Bool)
    (emb : Except Unit (List ℝ)) (store : Except Unit (List Doc)) (r : String)
    (hfail : emb = .error () ∨ store = .error ())
    (hmod : mod ≠ .ok true) :
    (chatHandler true (some msgs) mod emb store (.ok r)).1 = .ok r ∧
    ApiCall.chatCompletion (finalMessages (composeSystemPrompt "") msgs) ∈
      (chatHandler true (some msgs) mod emb store (.ok r)).2 ∧
    composeSystemPrompt "" = String.intercalate "\n\n" systemPromptParts := by
  have hctx : (retrievalStep (lastUserContent msgs) emb store).1 = "" := by
    rcases hfail with h | h
    · rw [h]
      rfl
    · rw [h]
      cases emb with
      | error e => rfl
      | ok q => rfl
  have hbase : composeSystemPrompt "" = String.intercalate "\n\n" systemPromptParts := by
    rw [composeSystemPrompt, if_neg (by simp)]
    rw [List.append_nil]
  cases mod with
  | error u =>
    refine ⟨rfl, ?_, hbase⟩
    simp only [chatHandler, Bool.not_true, Bool.false_eq_true, if_false, hctx]
    exact List.mem_cons_of_mem _ (List.mem_append_right _ (List.mem_singleton_self _))
  | ok b =>
    cases b with
    | true => exact absurd rfl hmod
    | false =>
      refine ⟨rfl, ?_, hbase⟩
      simp only [chatHandler, Bool.not_true, Bool.false_eq_true, if_false, hctx]
      exact List.mem_cons_of_mem _ (List.mem_append_right _ (List.mem_singleton_self _))

/-- Witness for C2: empty conversation, moderation passes, embedding
call throws, model call returns "ok". -/
theorem chatHandler_retrieval_failure_witness :
    (chatHandler true (some []) (.ok false) (.error ()) (.error ()) (.ok "ok")).1 =
      .ok "ok" ∧
    ApiCall.chatCompletion (finalMessages (composeSystemPrompt "") []) ∈
      (chatHandler true (some []) (.ok false) (.error ()) (.error ()) (.ok "ok")).2 ∧
    composeSystemPrompt "" = String.intercalate "\n\n" systemPromptParts :=
  chatHandler_retrieval_failure [] (.ok false) (.error ()) (.error ()) "ok"
    (Or.inl rfl) (by simp)

/-- **C5, counterexample.** The validation `!messages ||
!Array.isArray(messages)` accepts an *empty* array (`[]` is truthy and
is an array), so a chat request with an empty message sequence is not
rejected: it proceeds and returns a normal reply. -/
theorem chatHandler_empty_messages_counterexample :
    (chatHandler true (some []) (.ok false) (.error ()) (.error ()) (.ok "hi")).1 =
      .ok "hi" ∧
    (chatHandler true (some []) (.ok false) (.error ()) (.error ()) (.ok "hi")).1 ≠
      .badRequest "messages must be an array" := by
  have h : (chatHandler true (some []) (.ok false) (.error ()) (.error ()) (.ok "hi")).1 =
      .ok "hi" := rfl
  refine ⟨h, ?_⟩
  rw [h]
  intro hcontra
  exact Resp.noConfusion hcontra

/-- **C5, amended.** If the `messages` value is missing or not a
sequence, the chat request fails with a client-error response (and no
external call is made); an empty sequence, however, is accepted and
proceeds with empty user content. -/
theorem chatHandler_missing_messages (mod : Except Unit Bool)
    (emb : Except Unit (List ℝ)) (store : Except Unit (List Doc))
    (chat : Except Unit String) :
    chatHandler true none mod emb store chat =
      (.badRequest "messages must be an array", []) := rfl

/-- **C8.** The final message list sent to the model is: the composed
system message first, followed by exactly the caller-supplied
non-`system` messages in their original relative order (a sublist of
the input), with every caller-supplied `system` message removed — so
the list contains exactly one `system` message. -/
theorem finalMessages_spec (systemPrompt : String) (msgs : List Msg) :
    (finalMessages systemPrompt msgs).head? = some ⟨"system", systemPrompt⟩ ∧
    (finalMessages systemPrompt msgs).tail = msgs.filter (fun m => m.role != "system") ∧
    (finalMessages systemPrompt msgs).tail <+ msgs ∧
    (∀ m ∈ msgs, m.role ≠ "system" → m ∈ (finalMessages systemPrompt msgs).tail) ∧
    (finalMessages systemPrompt msgs).countP (fun m => m.role == "system") = 1 := by
  refine ⟨rfl, rfl, List.filter_sublist msgs, ?_, ?_⟩
  · intro m hm hrole
    show m ∈ msgs.filter (fun m => m.role != "system")
    exact List.mem_filter.mpr ⟨hm, by simp [hrole]⟩
  · show List.countP _ (⟨"system", systemPrompt⟩ :: msgs.filter (fun m => m.role != "system")) = 1
    rw [List.countP_cons]
    have h0 : List.countP (fun m => m.role == "system")
        (msgs.filter (fun m => m.role != "system")) = 0 := by
      rw [List.countP_eq_zero]
      intro a ha
      have := List.of_mem_filter ha
      simpa using this
    simp [h0]

/-! ### Document store (`server.js` lines 40–101)

The `documents` table becomes a list of rows plus the next rowid and a
logical clock supplying `created_at` values.  SQLite assigns
`CURRENT_TIMESTAMP` at insert time; the model idealizes timestamps of
distinct inserts as strictly increasing (the clock advances past every
insert). -/

/-- The persistent store state. -/
structure DB where
  rows : List Doc
  nextId : ℕ
  clock : ℕ

/-- The responses of the document endpoints. -/
inductive DocsResp where
  | ok (id : ℕ)
  | badRequest (error : String)
  | serverError (error : String)

/-- `title || null` (`server.js` line 84): an absent or empty (falsy)
title is stored as NULL. -/
def titleOrNull : Option String → Option String
  | none => none
  | some t => if t = "" then none else some t

/-- `POST /api/docs` (`server.js` lines 71–90).  `content = none`
models an absent or non-string `content` value; the validation
`!content || typeof content !== "string"` also rejects the empty
string.  On success a new row is appended with the next rowid and the
current clock value as `created_at`. -/
def addHandler (db : DB) (title : Option String) (content : Option String)
    (embOutcome : Except Unit (List ℝ)) : DocsResp × DB :=
  match content with
  | none => (.badRequest "content is required", db)
  | some c =>
    if c = "" then (.badRequest "content is required", db)
    else
      match embOutcome with
      | .error _ => (.serverError "failed to add document", db)
      | .ok e =>
        (.ok db.nextId,
          ⟨db.rows ++ [⟨db.nextId, titleOrNull title, c, e, db.clock⟩],
            db.nextId + 1, db.clock + 1⟩)

/-- A row as returned by `GET /api/docs`. -/
structure ListedDoc where
  id : ℕ
  title : Option String
  snippet : String
  created_at : ℕ

/-- `substr(content, 1, 800)` (`server.js` line 95): the first 800
characters of the content. -/
def snippetOf (s : String) : String := ⟨s.data.take 800⟩

/-- The comparator realizing `ORDER BY created_at DESC`. -/
def createdLE (a b : Doc) : Bool := decide (b.created_at ≤ a.created_at)

/-- `GET /api/docs` (`server.js` lines 93–101): all rows in descending
creation order, contents truncated to an 800-character snippet. -/
def listDocs (db : DB) : List ListedDoc :=
  (db.rows.mergeSort createdLE).map
    (fun r => ⟨r.id, r.title, snippetOf r.content, r.created_at⟩)

theorem createdLE_trans : ∀ a b c : Doc, createdLE a b → createdLE b c → createdLE a c :=
  fun _ _ _ hab hbc =>
    decide_eq_true (le_trans (of_decide_eq_true hbc) (of_decide_eq_true hab))

theorem createdLE_total : ∀ a b : Doc, createdLE a b || createdLE b a := by
  intro a b
  simp only [createdLE, Bool.or_eq_true, decide_eq_true_eq]
  exact le_total b.created_at a.created_at

/-- Sorting descending by `created_at` puts a row that is strictly
newer than every other row first. -/
theorem mergeSort_head_of_newest (rows : List Doc) (m : Doc)
    (hmax : ∀ r ∈ rows, r.created_at < m.created_at) :
    ((rows ++ [m]).mergeSort createdLE).head? = some m := by
  have hne : (rows ++ [m]).mergeSort createdLE ≠ [] := by
    intro h
    have := congrArg List.length h
    rw [List.length_mergeSort] at this
    simp at this
  obtain ⟨h, t, hht⟩ := List.exists_cons_of_ne_nil hne
  have hmem : m ∈ (rows ++ [m]).mergeSort createdLE := by
    rw [List.mem_mergeSort]
    exact List.mem_append_right _ (List.mem_singleton_self m)
  have hpair : ((rows ++ [m]).mergeSort createdLE).Pairwise
      (fun a b => b.created_at ≤ a.created_at) :=
    (List.sorted_mergeSort createdLE_trans createdLE_total (rows ++ [m])).imp
      (fun hd => of_decide_eq_true hd)
  rw [hht] at hmem hpair ⊢
  have hh : h = m := by
    rcases List.mem_cons.mp hmem with he | ht'
    · exact he.symm
    · have hle : m.created_at ≤ h.created_at :=
        (List.pairwise_cons.mp hpair).1 m ht'
      have hhmem : h ∈ rows ++ [m] := by
        have : h ∈ (rows ++ [m]).mergeSort createdLE := by
          rw [hht]; exact List.mem_cons_self h t
        rwa [List.mem_mergeSort] at this
      rcases List.mem_append.mp hhmem with hin | hm'
      · exact absurd hle (not_le.mpr (hmax h hin))
      · exact List.mem_singleton.mp hm'
  rw [hh]
  rfl

theorem listDocs_mk (rows : List Doc) (n k : ℕ) :
    listDocs ⟨rows, n, k⟩ = (rows.mergeSort createdLE).map
      (fun r => ⟨r.id, r.title, snippetOf r.content, r.created_at⟩) := rfl

/-- **C6.** An add request whose content is empty or not a text string
gets a client-error response and leaves the store unchanged. -/
theorem addHandler_invalid_content (db : DB) (title : Option String)
    (content : Option String) (emb : Except Unit (List ℝ))
    (h : content = none ∨ content = some "") :
    (addHandler db title content emb).1 = .badRequest "content is required" ∧
    (addHandler db title content emb).2 = db := by
  rcases h with h | h <;> rw [h] <;> exact ⟨rfl, rfl⟩

/-- Witness for C6: empty content against an empty store. -/
theorem addHandler_invalid_content_witness :
    (addHandler ⟨[], 1, 0⟩ none (some "") (.ok [])).1 =
      .badRequest "content is required" ∧
    (addHandler ⟨[], 1, 0⟩ none (some "") (.ok [])).2 = ⟨[], 1, 0⟩ :=
  addHandler_invalid_content ⟨[], 1, 0⟩ none (some "") (.ok []) (Or.inr rfl)

/-- **C7.** After a successful add (nonempty text content, embedding
call succeeds) on a store whose rows were all created before the
current clock value, the next list operation returns the new document
first, and every returned snippet is at most 800 characters long. -/
theorem addHandler_list_newest_first (db : DB) (title : Option String) (c : String)
    (e : List ℝ) (hc : c ≠ "")
    (hclock : ∀ r ∈ db.rows, r.created_at < db.clock) :
    (listDocs (addHandler db title (some c) (.ok e)).2).head? =
      some ⟨db.nextId, titleOrNull title, snippetOf c, db.clock⟩ ∧
    ∀ x ∈ listDocs (addHandler db title (some c) (.ok e)).2, x.snippet.length ≤ 800 := by
  have hdb : (addHandler db title (some c) (.ok e)).2 =
      ⟨db.rows ++ [⟨db.nextId, titleOrNull title, c, e, db.clock⟩],
        db.nextId + 1, db.clock + 1⟩ := by
    simp only [addHandler]
    rw [if_neg hc]
  rw [hdb, listDocs_mk]
  constructor
  · rw [List.head?_map,
      mergeSort_head_of_newest db.rows ⟨db.nextId, titleOrNull title, c, e, db.clock⟩
        (fun r hr => hclock r hr)]
    rfl
  · intro x hx
    obtain ⟨r, _, hr⟩ := List.mem_map.mp hx
    have hsn : x.snippet = snippetOf r.content := by
      rw [← hr]
    rw [hsn]
    show (r.content.data.take 800).length ≤ 800
    rw [List.length_take]
    exact min_le_left _ _

/-- Witness for C7: adding "hello" to an empty store. -/
theorem addHandler_list_newest_first_witness :
    (listDocs (addHandler ⟨[], 1, 0⟩ none (some "hello") (.ok [])).2).head? =
      some ⟨1, titleOrNull none, snippetOf "hello", 0⟩ ∧
    ∀ x ∈ listDocs (addHandler ⟨[], 1, 0⟩ none (some "hello") (.ok [])).2,
      x.snippet.length ≤ 800 :=
  addHandler_list_newest_first ⟨[], 1, 0⟩ none "hello" []
    (by simp) (by simp)

end AIBot
